import Mathlib

set_option maxRecDepth 8192

/-!
Verification development for the UniteChat conversation-search engine
(`backend/app/search.py`).  Strings are modelled as `List Char`; Python
dictionaries mapping keys to sets of document indices are modelled as total
functions into `Finset ℕ` (the code never distinguishes a missing key from an
empty set: every read uses falsy tests, and the builder never stores an empty
set).  Wall-clock stamps (`time.time()`) are modelled as natural-number clock
readings supplied by the environment.
-/

namespace UniteChat

/-- Whitespace characters recognised by Python's `str.strip` and the `\s`
regex class, restricted to the ASCII range (the only range the data uses). -/
def isSpace (c : Char) : Bool :=
  c = ' ' || c = '\t' || c = '\n' || c = '\r' || c = '\x0b' || c = '\x0c'

/-- Python `str.strip()`: drop whitespace at both ends. -/
def pyStrip (l : List Char) : List Char :=
  ((l.dropWhile isSpace).reverse.dropWhile isSpace).reverse

/-- Helper for `collapseWs`; the flag records whether the previous character
was whitespace (in which case further whitespace is swallowed). -/
def collapseWsAux : List Char → Bool → List Char
  | [], _ => []
  | c :: cs, prevSpace =>
    if isSpace c then
      if prevSpace then collapseWsAux cs true
      else ' ' :: collapseWsAux cs true
    else c :: collapseWsAux cs false

/-- `re.sub(r"\s+", " ", s)`: replace each maximal whitespace run by one space. -/
def collapseWs (l : List Char) : List Char := collapseWsAux l false

/-- `_normalize_space`: strip, then collapse internal whitespace. -/
def normalizeSpace (l : List Char) : List Char := collapseWs (pyStrip l)

/-- Python `str.lower()` (ASCII-adequate; CJK characters are fixed points). -/
def lowerStr (l : List Char) : List Char := l.map Char.toLower

/-- `_normalize_query`: `_normalize_space(q).lower()`. -/
def normalizeQuery (l : List Char) : List Char := lowerStr (normalizeSpace l)

/-- `_is_cjk`: the CJK Unified Ideographs range U+4E00 – U+9FFF. -/
def isCjk (c : Char) : Bool := 0x4e00 ≤ c.toNat && c.toNat ≤ 0x9fff

/-- Characters matched by the `[0-9A-Za-z]` class of `_ASCII_TOKEN_RE`. -/
def isAsciiAlnum (c : Char) : Bool :=
  ('0' ≤ c && c ≤ '9') || ('a' ≤ c && c ≤ 'z') || ('A' ≤ c && c ≤ 'Z')

/-- Helper: maximal runs of alphanumeric characters, accumulator-style. -/
def alnumRunsAux : List Char → List Char → List (List Char)
  | [], acc => if acc.isEmpty then [] else [acc.reverse]
  | c :: cs, acc =>
    if isAsciiAlnum c then alnumRunsAux cs (c :: acc)
    else if acc.isEmpty then alnumRunsAux cs []
    else acc.reverse :: alnumRunsAux cs []

/-- `_ASCII_TOKEN_RE.findall`: maximal `[0-9A-Za-z]` runs of length ≥ 2,
in order of occurrence, duplicates kept. -/
def asciiTokens (l : List Char) : List (List Char) :=
  (alnumRunsAux l []).filter (fun t => 2 ≤ t.length)

/-- Helper for `dedupFirst`: skip elements already seen. -/
def dedupFirstAux {α : Type} [DecidableEq α] : List α → List α → List α
  | [], _ => []
  | a :: as, seen =>
    if a ∈ seen then dedupFirstAux as seen else a :: dedupFirstAux as (a :: seen)

/-- `list(dict.fromkeys(xs))`: deduplicate keeping the first occurrence. -/
def dedupFirst {α : Type} [DecidableEq α] (l : List α) : List α := dedupFirstAux l []

/-- Python `hay.startswith(needle)` on character lists. -/
def startsWithL : List Char → List Char → Bool
  | [], _ => true
  | _ :: _, [] => false
  | a :: as, b :: bs => a = b && startsWithL as bs

/-- `hay.find(needle)` at running position `pos`: first match index or -1. -/
def findSubAux (needle : List Char) : List Char → Nat → Int
  | hay, pos =>
    if startsWithL needle hay then (pos : Int)
    else
      match hay with
      | [] => -1
      | _ :: t => findSubAux needle t (pos + 1)

/-- Python `hay.find(needle)`: index of first occurrence, or -1. -/
def findSub (needle hay : List Char) : Int := findSubAux needle hay 0

/-- Python `needle in hay` (substring containment). -/
def containsSub (needle hay : List Char) : Bool := 0 ≤ findSub needle hay

/-- `_ASCII_STOPWORDS`. -/
def asciiStopwords : List (List Char) :=
  [String.toList "a", String.toList "an", String.toList "and", String.toList "are",
   String.toList "as", String.toList "at", String.toList "be", String.toList "by",
   String.toList "for", String.toList "from", String.toList "in", String.toList "is",
   String.toList "it", String.toList "of", String.toList "on", String.toList "or",
   String.toList "that", String.toList "the", String.toList "this", String.toList "to",
   String.toList "with"]

/-- One indexed document (`SearchDoc` of the source). -/
structure SearchDoc where
  chat_id : String
  category : String
  title : List Char
  file_path : String
  text_norm : List Char
  text_view : List Char
deriving DecidableEq

/-- Postings map: ASCII token (or token prefix) to set of document indices.
A Python dict whose absent keys behave exactly like empty sets at every
read site, hence modelled as a total function. -/
abbrev PostingMap := List Char → Finset ℕ

/-- Postings map from a single CJK character to a set of document indices. -/
abbrev CjkMap := Char → Finset ℕ

/-- `FolderSearchIndex`.  `token_pre_index` is the source's
`token_prefix_index`; `built_at` is the `time.time()` stamp, modelled as a
natural-number clock reading. -/
structure FolderSearchIndex where
  folder : String
  docs : List SearchDoc
  token_index : PostingMap
  token_pre_index : PostingMap
  cjk_char_index : CjkMap
  built_at : ℕ

def emptyPost : PostingMap := fun _ => ∅

def emptyCjk : CjkMap := fun _ => ∅

/-- Insert document `i` into the postings set of key `k`. -/
def addPost (m : PostingMap) (k : List Char) (i : ℕ) : PostingMap :=
  fun t => if t = k then insert i (m t) else m t

/-- Insert document `i` into the CJK postings set of character `k`. -/
def addCjkPost (m : CjkMap) (k : Char) (i : ℕ) : CjkMap :=
  fun c => if c = k then insert i (m c) else m c

/-- The prefix lengths `range(_ASCII_PREFIX_MIN_LEN, min(_ASCII_PREFIX_MAX_LEN,
len(tok)) + 1)`, i.e. 3 .. min(8, len tok). -/
def preLens (tok : List Char) : List ℕ := List.range' 3 (min 8 tok.length - 2)

/-- Contribution of one ASCII token of document `i` to the token and
token-prefix postings (the inner loop body of `_rebuild_token_indexes`). -/
def indexToken (acc : PostingMap × PostingMap) (i : ℕ) (tok : List Char) :
    PostingMap × PostingMap :=
  let ti := addPost acc.1 tok i
  let pi :=
    if 3 ≤ tok.length then
      (preLens tok).foldl (fun m plen => addPost m (tok.take plen) i) acc.2
    else acc.2
  (ti, pi)

/-- The distinct ASCII tokens of one document: `set(_ASCII_TOKEN_RE.findall(s))`. -/
def docTokens (text : List Char) : List (List Char) := dedupFirst (asciiTokens text)

/-- The distinct CJK characters of one document. -/
def docCjkChars (text : List Char) : List Char :=
  dedupFirst (text.filter (fun c => isCjk c))

/-- Contribution of one document to the three postings maps
(one iteration of the outer loop of `_rebuild_token_indexes`). -/
def indexDoc (acc : PostingMap × PostingMap × CjkMap) (i : ℕ) (doc : SearchDoc) :
    PostingMap × PostingMap × CjkMap :=
  let tp := (docTokens doc.text_norm).foldl (fun a tok => indexToken a i tok) (acc.1, acc.2.1)
  let ci := (docCjkChars doc.text_norm).foldl (fun m ch => addCjkPost m ch i) acc.2.2
  (tp.1, tp.2, ci)

/-- The three freshly populated postings maps for a document array
(the loop of `_rebuild_token_indexes`, starting from empty maps). -/
def buildPostMaps (docs : List SearchDoc) : PostingMap × PostingMap × CjkMap :=
  docs.enum.foldl (fun acc p => indexDoc acc p.1 p.2) (emptyPost, emptyPost, emptyCjk)

/-- `_rebuild_token_indexes`: reset the three postings maps and repopulate
them from the document array (enumerated in order). -/
def rebuildTokenIndexes (idx : FolderSearchIndex) : FolderSearchIndex :=
  { idx with token_index := (buildPostMaps idx.docs).1,
             token_pre_index := (buildPostMaps idx.docs).2.1,
             cjk_char_index := (buildPostMaps idx.docs).2.2 }

/-! ## Query engine (`_search_in_index` and `_make_snippet`) -/

/-- Result record emitted by `_search_in_index`. -/
structure SearchResult where
  id : String
  category : String
  title : List Char
  snippet : List Char
  score : ℕ
deriving DecidableEq

def dummySearchDoc : SearchDoc := ⟨"", "", [], "", [], []⟩

/-- `_make_snippet`: a ±60 character window of the display text around the
match position, with ellipsis markers at clipped edges. -/
def makeSnippet (text_view : List Char) (pos : Int) (q_len : ℕ) : List Char :=
  if pos < 0 then []
  else
    let radius : ℕ := 60
    let start : ℕ := pos.toNat - radius
    let stop : ℕ := min text_view.length (pos.toNat + q_len + radius)
    let snip := pyStrip ((text_view.drop start).take (stop - start))
    let snip := if 0 < start then '…' :: snip else snip
    if stop < text_view.length then snip ++ ['…'] else snip

/-- Ascending enumeration of a finite set of document indices (the model's
deterministic stand-in for Python set iteration). -/
def finsetAsc (s : Finset ℕ) : List ℕ :=
  (List.range (s.sup id + 1)).filter (fun x => x ∈ s)

/-- Stable insertion keeping `a` after every element `b` with `le b a`
(so a fold over the input is a stable sort, as Python's `list.sort`). -/
def insertLe {α : Type} (le : α → α → Bool) (a : α) : List α → List α
  | [] => [a]
  | b :: bs => if le b a then b :: insertLe le a bs else a :: b :: bs

/-- Stable sort with respect to the boolean relation `le`; agrees with
Python's stable `list.sort` for total preorders. -/
def stableSort {α : Type} (le : α → α → Bool) (l : List α) : List α :=
  l.foldl (fun acc a => insertLe le a acc) []

/-- The CJK branch of candidate generation: the loop over
`cjk_terms[:8]` with its two early `break`s.  `none` models the Python
`candidates is None`. -/
def cjkCandLoop (ci : CjkMap) : List Char → Option (Finset ℕ) → Option (Finset ℕ)
  | [], acc => acc
  | ch :: rest, acc =>
    let posting := ci ch
    if posting = ∅ then some ∅
    else
      let acc' := match acc with
        | none => posting
        | some s => s ∩ posting
      if acc' = ∅ then some acc' else cjkCandLoop ci rest (some acc')

/-- Postings lookup for one ASCII token: `token_index`, falling back (for
tokens of length ≥ 3) to the at-most-8-character prefix in the
token-prefix postings. -/
def tokenPosting (ti tp : PostingMap) (tok : List Char) : Finset ℕ :=
  let posting := ti tok
  if posting = ∅ ∧ 3 ≤ tok.length then
    tp (if tok.length ≤ 8 then tok else tok.take 8)
  else posting

/-- The gathering loop over the primary tokens: `none` models the `break`
that sets `candidates = set()` when some token has no postings at all;
otherwise the `(len(posting), posting)` pairs in query order. -/
def collectPostings (ti tp : PostingMap) : List (List Char) →
    Option (List (ℕ × Finset ℕ))
  | [] => some []
  | tok :: rest =>
    let posting := tokenPosting ti tp tok
    if posting = ∅ then none
    else match collectPostings ti tp rest with
      | none => none
      | some ps => some ((posting.card, posting) :: ps)

/-- The smallest-first intersection loop with its short-circuit `break`. -/
def interLoop : List (ℕ × Finset ℕ) → Option (Finset ℕ) → Option (Finset ℕ)
  | [], acc => acc
  | p :: rest, acc =>
    let acc' := match acc with
      | none => p.2
      | some s => s ∩ p.2
    if acc' = ∅ then some acc' else interLoop rest (some acc')

/-- The distinct CJK characters of the normalized query, in order. -/
def cjkTerms (q_norm : List Char) : List Char :=
  dedupFirst (q_norm.filter (fun c => isCjk c))

/-- The primary ASCII tokens of the normalized query: significant tokens
(length ≥ 3, not a stopword), falling back to all tokens when none. -/
def primaryTokens (q_norm : List Char) : List (List Char) :=
  let token_terms := dedupFirst (asciiTokens q_norm)
  let primary := token_terms.filter (fun t => 3 ≤ t.length ∧ t ∉ asciiStopwords)
  if primary = [] then token_terms else primary

/-- The long multi-token ASCII query heuristic. -/
def isLongAsciiQuery (q_norm : List Char) : Bool :=
  28 ≤ q_norm.length ∧ 3 ≤ (primaryTokens q_norm).length ∧ cjkTerms q_norm = []

/-- Candidate generation of `_search_in_index` over the three postings
maps: the final value of `candidates`, where `none` is the Python `None`
(full-scan default). -/
def candidatesOptCore (ti tp : PostingMap) (ci : CjkMap) (q_norm : List Char) :
    Option (Finset ℕ) :=
  let cjk_terms := cjkTerms q_norm
  let primary_tokens := primaryTokens q_norm
  let c1 : Option (Finset ℕ) :=
    if cjk_terms ≠ [] then cjkCandLoop ci (cjk_terms.take 8) none
    else none
  if (c1 = none ∨ c1 = some ∅) ∧ primary_tokens ≠ [] then
    match collectPostings ti tp primary_tokens with
    | none => some ∅
    | some ps =>
      if c1 = none ∧ ps ≠ [] then
        interLoop (stableSort (fun a b => a.1 ≤ b.1) ps) none
      else c1
  else c1

/-- Candidate generation on an index value. -/
def candidatesOpt (idx : FolderSearchIndex) (q_norm : List Char) : Option (Finset ℕ) :=
  candidatesOptCore idx.token_index idx.token_pre_index idx.cjk_char_index q_norm

/-- The candidate set actually iterated (full scan when `candidates is None`). -/
def candidateSet (idx : FolderSearchIndex) (q_norm : List Char) : Finset ℕ :=
  (candidatesOpt idx q_norm).getD (Finset.range idx.docs.length)

/-- Earliest match position among the first six primary tokens, together
with the matched token's length (`best` / `best_len` of the source). -/
def bestTokenPosAux (text : List Char) : List (List Char) → Int × ℕ → Int × ℕ
  | [], acc => acc
  | t :: ts, acc =>
    let p := findSub t text
    if 0 ≤ p ∧ (acc.1 < 0 ∨ p < acc.1) then bestTokenPosAux text ts (p, t.length)
    else bestTokenPosAux text ts acc

def bestTokenPos (text : List Char) (toks : List (List Char)) : Int × ℕ :=
  bestTokenPosAux text (toks.take 6) (-1, 0)

/-- Verification and scoring of one candidate document (`none` = the
`continue` that discards a candidate failing substring verification).
`docs[di]` is modelled totally; a well-formed index never indexes out of
range (the source would raise `IndexError` there). -/
def evalCandidate (docs : List SearchDoc) (q_norm : List Char) (di : ℕ) :
    Option (ℕ × ℕ) :=
  let is_long := isLongAsciiQuery q_norm
  let primary_tokens := primaryTokens q_norm
  let doc := docs.getD di dummySearchDoc
  let pos_phrase : Int := if is_long then -1 else findSub q_norm doc.text_norm
  if ¬ is_long ∧ pos_phrase < 0 then none
  else
    let title_norm := normalizeQuery doc.title
    let s1 : ℕ := if containsSub q_norm title_norm then 100 else 0
    let s2 : ℕ :=
      if is_long ∧ primary_tokens ≠ [] ∧
          primary_tokens.all (fun t => containsSub t title_norm) then 80 else 0
    let pos : Int :=
      if is_long ∧ pos_phrase < 0 ∧ primary_tokens ≠ [] then
        (bestTokenPos doc.text_norm primary_tokens).1
      else pos_phrase
    let s3 : ℕ := if 0 ≤ pos then (50 - min pos 50).toNat else 0
    some (s1 + s2 + s3, di)

/-- Snippet assembly for one scored hit (the output loop of the source). -/
def mkResult (docs : List SearchDoc) (q_norm : List Char) (sd : ℕ × ℕ) :
    SearchResult :=
  let is_long := isLongAsciiQuery q_norm
  let primary_tokens := primaryTokens q_norm
  let doc := docs.getD sd.2 dummySearchDoc
  let pos0 : Int := if is_long then -1 else findSub q_norm doc.text_norm
  let pq : Int × ℕ :=
    if pos0 < 0 ∧ is_long ∧ primary_tokens ≠ [] then
      let b := bestTokenPos doc.text_norm primary_tokens
      (b.1, if b.2 ≠ 0 then b.2 else q_norm.length)
    else (pos0, q_norm.length)
  { id := doc.chat_id, category := doc.category, title := doc.title,
    snippet := makeSnippet doc.text_view pq.1 pq.2, score := sd.1 }

/-- `_search_in_index` over explicit document array and postings maps:
candidate generation, verification/scoring, stable descending sort by
score, truncation, snippet assembly. -/
def searchInIndexCore (docs : List SearchDoc) (ti tp : PostingMap) (ci : CjkMap)
    (q_norm : List Char) (limit : ℕ) : List SearchResult :=
  let cands := (candidatesOptCore ti tp ci q_norm).getD (Finset.range docs.length)
  let hits := (finsetAsc cands).filterMap (fun di => evalCandidate docs q_norm di)
  let sorted := stableSort (fun a b => b.1 ≤ a.1) hits
  (sorted.take limit).map (fun sd => mkResult docs q_norm sd)

/-- `_search_in_index`. -/
def searchInIndex (idx : FolderSearchIndex) (q_norm : List Char) (limit : ℕ) :
    List SearchResult :=
  searchInIndexCore idx.docs idx.token_index idx.token_pre_index idx.cjk_char_index
    q_norm limit

/-! ## Coordinator (`ConversationSearcher`) -/

/-- Key of the per-folder result cache:
`(folder, q_norm, eff_limit, built_at)`. -/
structure CacheKey where
  folder : String
  q_norm : List Char
  limit : ℕ
  built_at : ℕ
deriving DecidableEq

/-- The bookkeeping state of `ConversationSearcher`, per-key maps modelled
as total functions.  `evExists`/`evSet` model presence and flag of the
per-folder `threading.Event`. -/
structure CoordState where
  indexes : String → Option FolderSearchIndex
  build_errors : String → Option (List Char)
  building : String → Bool
  evExists : String → Bool
  evSet : String → Bool
  dirty : String → Bool
  search_cache : List (CacheKey × List SearchResult)

/-- Pointwise map update. -/
def upd {β : Type} (f : String → β) (k : String) (v : β) : String → β :=
  fun x => if x = k then v else f x

/-- `(folder or "").strip()`. -/
def stripStr (s : String) : String := String.mk (pyStrip s.toList)

/-- `invalidate`: for a nonempty stripped folder, drop index and recorded
error, mark dirty, clear the build event if present, and purge the
folder's cached results. -/
def invalidateOp (s : CoordState) (folder : String) : CoordState :=
  let f := stripStr folder
  if f = "" then s
  else
    { s with
      indexes := upd s.indexes f none,
      build_errors := upd s.build_errors f none,
      dirty := upd s.dirty f true,
      evSet := if s.evExists f then upd s.evSet f false else s.evSet,
      search_cache := s.search_cache.filter (fun kv => kv.1.folder ≠ f) }

/-- `schedule_build`: the returned flag records whether a build was
submitted to the worker pool. -/
def scheduleBuildOp (s : CoordState) (folder : String) : CoordState × Bool :=
  let f := stripStr folder
  if f = "" then (s, false)
  else if s.building f then (s, false)
  else if (s.indexes f).isSome ∧ ¬ s.dirty f then (s, false)
  else
    ({ s with evExists := upd s.evExists f true,
              building := upd s.building f true,
              dirty := upd s.dirty f false }, true)

/-- The `FileNotFoundError` message of `_build_index` for a missing folder. -/
def buildFailMsg (folder : String) : List Char :=
  String.toList "folder not found: " ++ folder.toList

/-- A successful `_build_index` run: the fully built index (with its
`built_at` stamp), and whether it was produced by one of the special
Claude / Gemini container paths.  Those paths install the index and
`return` early (source lines 475-479 and 506-510), so — unlike the
generic per-file tail (lines 584-588) — they never reach the
`_build_errors.pop`. -/
structure BuiltIndex where
  idx : FolderSearchIndex
  specialPath : Bool

/-- `_build_index_safe`: run `_build_index` (outcome supplied by the
environment as `res`: the raised message, or a `BuiltIndex`), record
failures, then the `finally` bookkeeping.  A generic-path success pops
the recorded error; a special-path success installs the index without
touching it.  The returned flag is `should_rebuild`, i.e. a follow-up
build submission. -/
def buildIndexSafeStep (s : CoordState) (f : String)
    (res : Except (List Char) BuiltIndex) : CoordState × Bool :=
  let s1 := match res with
    | .ok b =>
      { s with indexes := upd s.indexes f (some b.idx),
               build_errors := if b.specialPath then s.build_errors
                 else upd s.build_errors f none }
    | .error e => { s with build_errors := upd s.build_errors f (some e) }
  let s2 := { s1 with building := upd s1.building f false,
                      evSet := if s1.evExists f then upd s1.evSet f true else s1.evSet }
  if s2.dirty f then
    ({ s2 with dirty := upd s2.dirty f false,
               building := upd s2.building f true,
               evSet := if s2.evExists f then upd s2.evSet f false else s2.evSet }, true)
  else (s2, false)

/-- Outcome of `ensure_index`: a returned index, the `ValueError` for an
empty folder name, or a raised `RuntimeError` message. -/
inductive EnsureRes where
  | ok (idx : FolderSearchIndex)
  | errValue
  | errRun (msg : List Char)

/-- `ensure_index`.  `res` is the outcome of the synchronous
`_build_index` run when one happens; `postWait` is the coordinator state
observed when re-taking the lock after the bounded wait on the build
event (the same state when the wait is skipped). -/
def ensureIndexOp (s : CoordState) (folder : String)
    (res : Except (List Char) BuiltIndex) (postWait : CoordState) :
    EnsureRes × CoordState :=
  let f := stripStr folder
  if f = "" then (.errValue, s)
  else
    match s.indexes f with
    | some idx => (.ok idx, s)
    | none =>
      let s1 := { s with evExists := upd s.evExists f true }
      if ¬ s.building f then
        let s2 := { s1 with building := upd s1.building f true }
        let s3 := (buildIndexSafeStep s2 f res).1
        match s3.indexes f with
        | some idx => (.ok idx, s3)
        | none =>
          (.errRun (match s3.build_errors f with
            | some e => if e = [] then String.toList "index build failed" else e
            | none => String.toList "index build failed"), s3)
      else
        match postWait.indexes f with
        | some idx => (.ok idx, postWait)
        | none =>
          match postWait.build_errors f with
          | some e =>
            if e = [] then (.errRun (String.toList "index is still building"), postWait)
            else (.errRun e, postWait)
          | none => (.errRun (String.toList "index is still building"), postWait)

/-- The HTTP-facing shape of a `search` outcome. -/
structure SearchResp where
  ready : Bool
  results : List SearchResult
deriving DecidableEq

/-- Outcome of `search`: a response, or a propagated exception. -/
inductive SearchOut where
  | resp (r : SearchResp)
  | raisedValue
  | raisedRun (msg : List Char)
deriving DecidableEq

/-- The `'still building' in str(e).lower()` test of `search`. -/
def stillBuildingTest (msg : List Char) : Bool :=
  containsSub (String.toList "still building") (lowerStr msg)

/-- `max(1, min(int(limit or 50), 200))` (nonnegative limits). -/
def effLimit (limit : ℕ) : ℕ :=
  max 1 (min (if limit = 0 then 50 else limit) 200)

def cacheLookup (cache : List (CacheKey × List SearchResult)) (k : CacheKey) :
    Option (List SearchResult) :=
  match cache.find? (fun kv => kv.1 = k) with
  | some kv => some kv.2
  | none => none

/-- Store a result under a fresh key, then evict oldest-inserted entries
while above capacity 256. -/
def cacheInsert (cache : List (CacheKey × List SearchResult))
    (k : CacheKey) (v : List SearchResult) : List (CacheKey × List SearchResult) :=
  let c := cache ++ [(k, v)]
  if 256 < c.length then c.drop (c.length - 256) else c

/-- `search`: empty-query early return, `ensure_index` with the
still-building mapping to `ready: false`, then the result cache around
`_search_in_index`. -/
def searchOp (s : CoordState) (folder : String) (q : String) (limit : ℕ)
    (res : Except (List Char) BuiltIndex) (postWait : CoordState) :
    SearchOut × CoordState :=
  let q_norm := normalizeQuery q.toList
  if q_norm = [] then (.resp ⟨true, []⟩, s)
  else
    match ensureIndexOp s folder res postWait with
    | (.errValue, s') => (.raisedValue, s')
    | (.errRun msg, s') =>
      if stillBuildingTest msg then (.resp ⟨false, []⟩, s')
      else (.raisedRun msg, s')
    | (.ok idx, s') =>
      let el := effLimit limit
      let key : CacheKey := ⟨folder, q_norm, el, idx.built_at⟩
      match cacheLookup s'.search_cache key with
      | some cached => (.resp ⟨true, cached⟩, s')
      | none =>
        let results := searchInIndex idx q_norm el
        (.resp ⟨true, results⟩,
         { s' with search_cache := cacheInsert s'.search_cache key results })

/-! ## Invalidate-during-build interleaving model

Per-collection view for the dirty-flag analysis.  `docsGen` counts
mutations of the underlying document set; the installed index and the
in-flight build each record the generation they were (will be) built
from.  Each step below is one of the atomic critical sections of the
source, in the order the threads can interleave them. -/

structure SimState where
  index : Option ℕ
  building : Bool
  dirty : Bool
  evSet : Bool
  docsGen : ℕ
  pending : Option ℕ
deriving DecidableEq

/-- A mutation of the collection's documents (rename / delete / override
change), which the host follows with `invalidate`. -/
def simMutate (s : SimState) : SimState := { s with docsGen := s.docsGen + 1 }

/-- `invalidate` (nonempty folder): drop the index, mark dirty, clear the
build event. -/
def simInvalidate (s : SimState) : SimState :=
  { s with index := none, dirty := true, evSet := false }

/-- The atomic installation `self._indexes[folder] = new_idx` at the end
of `_build_index`: the in-flight build publishes the index built from its
snapshot generation. -/
def simSwap (s : SimState) : SimState :=
  match s.pending with
  | some g => { s with index := some g }
  | none => s

/-- The `finally` block of `_build_index_safe`: leave building and signal
the event; when dirty, immediately re-enter building (event cleared) with
a fresh snapshot of the current documents. -/
def simFinally (s : SimState) : SimState :=
  let s1 := { s with building := false, evSet := true, pending := none }
  if s.dirty then
    { s1 with dirty := false, building := true, evSet := false,
              pending := some s.docsGen }
  else s1

/-- What a search that finds the collection ready observes: the
generation of the installed index. -/
def simReadyView (s : SimState) : Option ℕ := s.index

/-! ## Lock-discipline traces

Straight-line event traces of the relevant code paths, recording
(re-entrant) lock acquisitions/releases and where the expensive work
(index building, candidate scoring) happens. -/

inductive LockEv where
  | acq | rel | buildWork | scoreWork
deriving DecidableEq

/-- Lock depth immediately before the `i`-th event of the trace. -/
def lockDepthAt (tr : List LockEv) (i : ℕ) : ℕ :=
  (tr.take i).foldl (fun d e => match e with
    | .acq => d + 1
    | .rel => d - 1
    | _ => d) 0

/-- `ensure_index`, synchronous-build path (collection absent, nobody
building): the entire `_build_index_safe` call — document scanning and
tokenization included — runs inside the outer `with self._lock` block of
source lines 275-291; the inner acquire/release pairs are the re-entrant
acquisitions by `_build_index`'s pointer swap and by the `finally`
bookkeeping. -/
def ensureSyncTrace : List LockEv :=
  [.acq, .buildWork, .acq, .rel, .acq, .rel, .rel]

/-- A background `_build_index_safe` run submitted to the worker pool:
build work with no lock held; the lock is taken only for the pointer swap
and the `finally` bookkeeping. -/
def backgroundBuildTrace : List LockEv :=
  [.buildWork, .acq, .rel, .acq, .rel]

/-- `search` with a ready index and a cache miss: lock for the index
pointer read, lock for the cache probe, scoring with no lock held, lock
for the cache store. -/
def searchReadyTrace : List LockEv :=
  [.acq, .rel, .acq, .rel, .scoreWork, .acq, .rel]

/-- The lock is held at position `i` of the trace. -/
abbrev heldAt (tr : List LockEv) (i : ℕ) : Prop := 0 < lockDepthAt tr i

/-! ## Mathematical shorthand used in claim statements -/

/-- Intersection of a nonempty list of finite sets (the mathematical
reading of "intersect their postings sets"); `∅` for the empty list. -/
def listInter : List (Finset ℕ) → Finset ℕ
  | [] => ∅
  | s :: rest => rest.foldl (· ∩ ·) s

/-! ## Concrete sample data (used by witnesses and counterexamples) -/

/-- Scenario document: title "Hello World", body mentioning "transformers". -/
def sampleDoc : SearchDoc :=
  { chat_id := "a", category := "all", title := String.toList "Hello World",
    file_path := "",
    text_norm := normalizeQuery (String.toList "Hello World this is a test about transformers"),
    text_view := normalizeSpace (String.toList "Hello World this is a test about transformers") }

def sampleIdx : FolderSearchIndex :=
  rebuildTokenIndexes ⟨"f", [sampleDoc], emptyPost, emptyPost, emptyCjk, 5⟩

def cjkDocA : SearchDoc :=
  { chat_id := "a", category := "all", title := String.toList "a",
    file_path := "", text_norm := String.toList "变压器的工作原理",
    text_view := String.toList "变压器的工作原理" }

def cjkDocB : SearchDoc :=
  { chat_id := "b", category := "all", title := String.toList "b",
    file_path := "", text_norm := String.toList "卷积神经网络",
    text_view := String.toList "卷积神经网络" }

def cjkIdx : FolderSearchIndex :=
  rebuildTokenIndexes ⟨"f", [cjkDocA, cjkDocB], emptyPost, emptyPost, emptyCjk, 0⟩

/-- A document whose text contains "zzz" only inside the larger token
"azzzb" (so "zzz" is a substring but not a token). -/
def azDoc : SearchDoc :=
  { chat_id := "z", category := "all", title := String.toList "t",
    file_path := "", text_norm := String.toList "azzzb",
    text_view := String.toList "azzzb" }

def azIdx : FolderSearchIndex :=
  rebuildTokenIndexes ⟨"f", [azDoc], emptyPost, emptyPost, emptyCjk, 0⟩

/-- An index over an empty (post-mutation) document set, stamped with the
same clock reading as `sampleIdx`. -/
def emptyDocsIdx : FolderSearchIndex :=
  rebuildTokenIndexes ⟨"f", [], emptyPost, emptyPost, emptyCjk, 5⟩

/-- The pristine coordinator state. -/
def coord0 : CoordState :=
  ⟨fun _ => none, fun _ => none, fun _ => false, fun _ => false, fun _ => false,
   fun _ => false, []⟩

/-- Coordinator with folder `"f"` ready at the `sampleIdx` generation. -/
def coordReady : CoordState :=
  { coord0 with indexes := upd coord0.indexes "f" (some sampleIdx) }

/-- State after one cache-filling search for "hello" on `coordReady`. -/
def coordCached : CoordState :=
  (searchOp coordReady "f" "hello" 50 (.error []) coord0).2

/-- `coordCached` after a generic-path rebuild that replaces `sampleIdx`
by `emptyDocsIdx` (same clock stamp, documents gone). -/
def coordRebuilt : CoordState :=
  (buildIndexSafeStep coordCached "f" (.ok ⟨emptyDocsIdx, false⟩)).1

/-- Interleaving start state: a build for generation 0 in flight. -/
def simSt0 : SimState :=
  { index := none, building := true, dirty := false, evSet := false,
    docsGen := 0, pending := some 0 }

/-- `simSt0` after: documents mutate, `invalidate` runs, then the
in-flight build installs its (pre-invalidation) index. -/
def simStale : SimState := simSwap (simInvalidate (simMutate simSt0))

/-! ## Helper lemmas -/

theorem pyStrip_eq_nil (l : List Char) (h : l.all isSpace = true) : pyStrip l = [] := by
  have h1 : l.dropWhile isSpace = [] := by
    induction l with
    | nil => rfl
    | cons c cs ih =>
      simp only [List.all_cons, Bool.and_eq_true] at h
      simp [List.dropWhile, h.1, ih h.2]
  simp [pyStrip, h1]

theorem stripStr_eq_empty (s : String) (h : s.toList.all isSpace = true) :
    stripStr s = "" := by
  have h1 : pyStrip s.toList = [] := pyStrip_eq_nil _ h
  show String.mk (pyStrip s.toList) = ""
  rw [h1]

theorem searchInIndex_congr (a b : FolderSearchIndex) (hd : a.docs = b.docs)
    (ht : a.token_index = b.token_index) (hp : a.token_pre_index = b.token_pre_index)
    (hc : a.cjk_char_index = b.cjk_char_index) (q : List Char) (l : ℕ) :
    searchInIndex a q l = searchInIndex b q l := by
  simp only [searchInIndex, hd, ht, hp, hc]

theorem buildStep_indexes_ok (s : CoordState) (f : String) (b : BuiltIndex) :
    (buildIndexSafeStep s f (.ok b)).1.indexes f = some b.idx := by
  simp only [buildIndexSafeStep]
  split <;> simp [upd]

theorem buildStep_indexes_err (s : CoordState) (f : String) (e : List Char) :
    (buildIndexSafeStep s f (.error e)).1.indexes f = s.indexes f := by
  simp only [buildIndexSafeStep]
  split <;> simp [upd]

theorem buildStep_errors_err (s : CoordState) (f : String) (e : List Char) :
    (buildIndexSafeStep s f (.error e)).1.build_errors f = some e := by
  simp only [buildIndexSafeStep]
  split <;> simp [upd]

theorem buildStep_errors_ok_generic (s : CoordState) (f : String)
    (idx : FolderSearchIndex) :
    (buildIndexSafeStep s f (.ok ⟨idx, false⟩)).1.build_errors f = none := by
  simp only [buildIndexSafeStep]
  split <;> simp [upd]

theorem buildStep_errors_ok_special (s : CoordState) (f : String)
    (idx : FolderSearchIndex) :
    (buildIndexSafeStep s f (.ok ⟨idx, true⟩)).1.build_errors f = s.build_errors f := by
  simp only [buildIndexSafeStep]
  split <;> simp [upd]

theorem mem_foldl_inter (ss : List (Finset ℕ)) (s : Finset ℕ) (x : ℕ) :
    x ∈ ss.foldl (· ∩ ·) s ↔ x ∈ s ∧ ∀ a ∈ ss, x ∈ a := by
  induction ss generalizing s with
  | nil => simp
  | cons a ss ih =>
    simp only [List.foldl_cons, ih, Finset.mem_inter, List.mem_cons]
    constructor
    · rintro ⟨⟨hs, ha⟩, hall⟩
      exact ⟨hs, fun b hb => hb.elim (fun e => e ▸ ha) (hall b)⟩
    · rintro ⟨hs, hall⟩
      exact ⟨⟨hs, hall a (Or.inl rfl)⟩, fun b hb => hall b (Or.inr hb)⟩

theorem mem_listInter (s : Finset ℕ) (ss : List (Finset ℕ)) (x : ℕ) :
    x ∈ listInter (s :: ss) ↔ x ∈ s ∧ ∀ a ∈ ss, x ∈ a :=
  mem_foldl_inter ss s x

theorem cjkCandLoop_some (ci : CjkMap) (l : List Char) :
    ∀ s, ∃ t, cjkCandLoop ci l (some s) = some t ∧ t ⊆ s ∧
      ∀ x ∈ t, ∀ ch ∈ l, x ∈ ci ch := by
  induction l with
  | nil => exact fun s => ⟨s, rfl, le_refl s, by simp⟩
  | cons ch rest ih =>
    intro s
    by_cases hp : ci ch = ∅
    · exact ⟨∅, by simp [cjkCandLoop, hp], Finset.empty_subset s, by simp⟩
    · by_cases ha : s ∩ ci ch = ∅
      · refine ⟨∅, ?_, Finset.empty_subset s, by simp⟩
        simp [cjkCandLoop, hp, ha]
      · obtain ⟨t, ht, hsub, hall⟩ := ih (s ∩ ci ch)
        refine ⟨t, ?_, fun x hx => (Finset.mem_inter.mp (hsub hx)).1, ?_⟩
        · simp [cjkCandLoop, hp, ha, ht]
        · intro x hx c hc
          rcases List.mem_cons.mp hc with h | h
          · exact h ▸ (Finset.mem_inter.mp (hsub hx)).2
          · exact hall x hx c h

theorem cjkCandLoop_none (ci : CjkMap) (ch : Char) (rest : List Char) :
    ∃ t, cjkCandLoop ci (ch :: rest) none = some t ∧
      ∀ x ∈ t, ∀ c ∈ ch :: rest, x ∈ ci c := by
  by_cases hp : ci ch = ∅
  · exact ⟨∅, by simp [cjkCandLoop, hp], by simp⟩
  · obtain ⟨t, ht, hsub, hall⟩ := cjkCandLoop_some ci rest (ci ch)
    refine ⟨t, ?_, ?_⟩
    · simp [cjkCandLoop, hp, ht]
    · intro x hx c hc
      rcases List.mem_cons.mp hc with h | h
      · exact h ▸ hsub hx
      · exact hall x hx c h

theorem cjkCandLoop_empty_of_inter (ci : CjkMap) (l : List Char) (hl : l ≠ [])
    (h : listInter (l.map ci) = ∅) : cjkCandLoop ci l none = some ∅ := by
  obtain ⟨ch, rest, rfl⟩ := List.exists_cons_of_ne_nil hl
  obtain ⟨t, ht, hall⟩ := cjkCandLoop_none ci ch rest
  have ht0 : t = ∅ := by
    rw [Finset.eq_empty_iff_forall_not_mem]
    intro x hx
    have hmem : x ∈ listInter (ci ch :: rest.map ci) := by
      rw [mem_listInter]
      refine ⟨hall x hx ch (List.mem_cons_self ..), ?_⟩
      intro a haa
      obtain ⟨c, hc, rfl⟩ := List.mem_map.mp haa
      exact hall x hx c (List.mem_cons_of_mem _ hc)
    rw [show (ci ch :: rest.map ci) = (ch :: rest).map ci from rfl, h] at hmem
    exact absurd hmem (Finset.not_mem_empty x)
  exact ht0 ▸ ht

theorem finsetAsc_empty : finsetAsc ∅ = [] := by decide

theorem searchInIndexCore_of_empty (docs : List SearchDoc) (ti tp : PostingMap)
    (ci : CjkMap) (q_norm : List Char) (limit : ℕ)
    (h : candidatesOptCore ti tp ci q_norm = some ∅) :
    searchInIndexCore docs ti tp ci q_norm limit = [] := by
  simp [searchInIndexCore, h, finsetAsc_empty, stableSort]

theorem candidatesOptCore_of_cjk_empty (ti tp : PostingMap) (ci : CjkMap)
    (q_norm : List Char) (hcjk : cjkTerms q_norm ≠ [])
    (hloop : cjkCandLoop ci ((cjkTerms q_norm).take 8) none = some ∅) :
    candidatesOptCore ti tp ci q_norm = some ∅ := by
  by_cases hpt : primaryTokens q_norm = []
  · simp [candidatesOptCore, hcjk, hloop, hpt]
  · simp only [candidatesOptCore, if_pos hcjk, hloop]
    rw [if_pos ⟨Or.inr trivial, hpt⟩]
    cases hcp : collectPostings ti tp (primaryTokens q_norm) with
    | none => rfl
    | some ps => simp

/-! ## Claim C2 -/

/-- C2: for every index and every normalized query containing at least one
CJK character, candidate generation intersects the `cjk_char_index`
postings of the first 8 distinct CJK characters; when that intersection is
empty the candidate set is empty and the query returns no results — even
when the query also contains ASCII tokens with non-empty postings. -/
theorem claim_c2 (idx : FolderSearchIndex) (q_norm : List Char) (limit : ℕ)
    (hcjk : cjkTerms q_norm ≠ [])
    (hint : listInter (((cjkTerms q_norm).take 8).map idx.cjk_char_index) = ∅) :
    candidateSet idx q_norm = ∅ ∧ searchInIndex idx q_norm limit = [] := by
  have hl : (cjkTerms q_norm).take 8 ≠ [] := by
    cases h : cjkTerms q_norm with
    | nil => exact absurd h hcjk
    | cons a l => simp [h]
  have hloop := cjkCandLoop_empty_of_inter idx.cjk_char_index _ hl hint
  have hcand := candidatesOptCore_of_cjk_empty idx.token_index idx.token_pre_index
    idx.cjk_char_index q_norm hcjk hloop
  constructor
  · simp [candidateSet, candidatesOpt, hcand]
  · exact searchInIndexCore_of_empty _ _ _ _ _ _ hcand

/-- Witness for C2: the query "猫 hello" (a CJK character with empty
postings plus an ASCII token with non-empty postings) against an index
that does contain the token "hello". -/
theorem claim_c2_witness :
    candidateSet sampleIdx (String.toList "猫 hello") = ∅ ∧
    searchInIndex sampleIdx (String.toList "猫 hello") 50 = [] ∧
    sampleIdx.token_index (String.toList "hello") ≠ ∅ := by
  obtain ⟨h1, h2⟩ := claim_c2 sampleIdx (String.toList "猫 hello") 50
    (by decide) (by decide)
  exact ⟨h1, h2, by decide⟩

/-! ## Claim C3 -/

theorem interLoop_some (l : List (ℕ × Finset ℕ)) :
    ∀ s, ∃ t, interLoop l (some s) = some t ∧
      ∀ x, x ∈ t ↔ x ∈ s ∧ ∀ p ∈ l, x ∈ p.2 := by
  induction l with
  | nil => exact fun s => ⟨s, rfl, by simp⟩
  | cons p rest ih =>
    intro s
    by_cases ha : s ∩ p.2 = ∅
    · refine ⟨∅, by simp [interLoop, ha], fun x => ?_⟩
      simp only [Finset.not_mem_empty, false_iff]
      rintro ⟨hs, hall⟩
      have : x ∈ s ∩ p.2 := Finset.mem_inter.mpr ⟨hs, hall p (List.mem_cons_self ..)⟩
      exact absurd (ha ▸ this) (Finset.not_mem_empty x)
    · obtain ⟨t, ht, hiff⟩ := ih (s ∩ p.2)
      refine ⟨t, by simp [interLoop, ha, ht], fun x => ?_⟩
      rw [hiff, Finset.mem_inter]
      constructor
      · rintro ⟨⟨hs, hp⟩, hall⟩
        exact ⟨hs, fun q hq => (List.mem_cons.mp hq).elim (fun e => e ▸ hp) (hall q)⟩
      · rintro ⟨hs, hall⟩
        exact ⟨⟨hs, hall p (List.mem_cons_self ..)⟩,
          fun q hq => hall q (List.mem_cons_of_mem _ hq)⟩

theorem interLoop_none (l : List (ℕ × Finset ℕ)) (hl : l ≠ []) :
    ∃ t, interLoop l none = some t ∧ ∀ x, x ∈ t ↔ ∀ p ∈ l, x ∈ p.2 := by
  obtain ⟨p, rest, rfl⟩ := List.exists_cons_of_ne_nil hl
  by_cases ha : p.2 = ∅
  · refine ⟨∅, by simp [interLoop, ha], fun x => ?_⟩
    simp only [Finset.not_mem_empty, false_iff]
    intro hall
    exact absurd (ha ▸ hall p (List.mem_cons_self ..)) (Finset.not_mem_empty x)
  · obtain ⟨t, ht, hiff⟩ := interLoop_some rest p.2
    refine ⟨t, by simp [interLoop, ha, ht], fun x => ?_⟩
    rw [hiff]
    constructor
    · rintro ⟨hp, hall⟩
      exact fun q hq => (List.mem_cons.mp hq).elim (fun e => e ▸ hp) (hall q)
    · intro hall
      exact ⟨hall p (List.mem_cons_self ..),
        fun q hq => hall q (List.mem_cons_of_mem _ hq)⟩

theorem mem_insertLe {α : Type} (le : α → α → Bool) (x a : α) (l : List α) :
    a ∈ insertLe le x l ↔ a = x ∨ a ∈ l := by
  induction l with
  | nil => simp [insertLe]
  | cons b bs ih =>
    by_cases h : le b x = true
    · simp only [insertLe, if_pos h, List.mem_cons, ih]
      try tauto
    · simp only [insertLe, if_neg h, List.mem_cons]
      try tauto

theorem mem_stableSort_aux {α : Type} (le : α → α → Bool) (l : List α) :
    ∀ acc a, a ∈ l.foldl (fun acc x => insertLe le x acc) acc ↔ a ∈ acc ∨ a ∈ l := by
  induction l with
  | nil => simp
  | cons b bs ih =>
    intro acc a
    simp only [List.foldl_cons, ih, mem_insertLe, List.mem_cons]
    tauto

theorem mem_stableSort {α : Type} (le : α → α → Bool) (l : List α) (a : α) :
    a ∈ stableSort le l ↔ a ∈ l := by
  simp [stableSort, mem_stableSort_aux]

theorem stableSort_ne_nil {α : Type} (le : α → α → Bool) (l : List α) (hl : l ≠ []) :
    stableSort le l ≠ [] := by
  obtain ⟨x, rest, rfl⟩ := List.exists_cons_of_ne_nil hl
  intro h
  have : x ∈ stableSort le (x :: rest) := (mem_stableSort ..).mpr (List.mem_cons_self ..)
  rw [h] at this
  exact absurd this (List.not_mem_nil x)

theorem collectPostings_none_iff (ti tp : PostingMap) (l : List (List Char)) :
    collectPostings ti tp l = none ↔ ∃ tok ∈ l, tokenPosting ti tp tok = ∅ := by
  induction l with
  | nil => simp [collectPostings]
  | cons tok rest ih =>
    by_cases h : tokenPosting ti tp tok = ∅
    · simp only [collectPostings, if_pos h, true_iff]
      exact ⟨tok, List.mem_cons_self .., h⟩
    · simp only [collectPostings, if_neg h]
      cases hr : collectPostings ti tp rest with
      | none =>
        simp only [true_iff]
        obtain ⟨t, htl, ht⟩ := ih.mp hr
        exact ⟨t, List.mem_cons_of_mem _ htl, ht⟩
      | some ps =>
        simp only [reduceCtorEq, false_iff, not_exists]
        rintro t ⟨htl, ht⟩
        rcases List.mem_cons.mp htl with rfl | htl2
        · exact h ht
        · have hcontr := ih.mpr ⟨t, htl2, ht⟩
          rw [hr] at hcontr
          exact Option.noConfusion hcontr

theorem collectPostings_some (ti tp : PostingMap) (l : List (List Char))
    (ps : List (ℕ × Finset ℕ)) (h : collectPostings ti tp l = some ps) :
    ps = l.map (fun tok => ((tokenPosting ti tp tok).card, tokenPosting ti tp tok)) := by
  induction l generalizing ps with
  | nil => simp [collectPostings] at h; simp [h.symm]
  | cons tok rest ih =>
    by_cases hp : tokenPosting ti tp tok = ∅
    · simp [collectPostings, hp] at h
    · simp only [collectPostings, if_neg hp] at h
      cases hr : collectPostings ti tp rest with
      | none => rw [hr] at h; exact absurd h (fun hc => Option.noConfusion hc)
      | some qs =>
        rw [hr] at h
        have h2 := Option.some.inj h
        simp [List.map_cons, ← h2, ih qs hr]

/-- C3 counterexample: the query "zzz" against the index over the single
document "azzzb" finds no postings at all for its only token (neither
`token_index` nor the prefix postings), yet the candidate set is empty —
not the claimed full scan over every document, which substring
verification would have accepted. -/
theorem claim_c3_cex :
    ((primaryTokens (String.toList "zzz")).all
      (fun tok => tokenPosting azIdx.token_index azIdx.token_pre_index tok = ∅)) = true ∧
    azIdx.docs.length = 1 ∧
    containsSub (String.toList "zzz") azDoc.text_norm = true ∧
    candidateSet azIdx (String.toList "zzz") = ∅ ∧
    candidateSet azIdx (String.toList "zzz") ≠ Finset.range azIdx.docs.length ∧
    searchInIndex azIdx (String.toList "zzz") 50 = [] := by
  decide

/-- C3 (amended): for every CJK-free query with at least one significant
ASCII token, each primary token is looked up in `token_index` with the
fixed-length-prefix fallback (`tokenPosting`); when every primary token
has a non-empty postings set, the candidate set is the smallest-first,
short-circuiting intersection of those postings sets; when some primary
token has no postings at all, the candidate set is empty and the query
returns no results (there is no full scan in this situation — the full
scan arises only for queries with no ASCII tokens and no CJK characters). -/
theorem claim_c3_amended (idx : FolderSearchIndex) (q_norm : List Char) (limit : ℕ)
    (hcjk : cjkTerms q_norm = [])
    (hsig : ∃ t ∈ dedupFirst (asciiTokens q_norm), 3 ≤ t.length ∧ t ∉ asciiStopwords) :
    ((∃ tok ∈ primaryTokens q_norm,
        tokenPosting idx.token_index idx.token_pre_index tok = ∅) →
      candidateSet idx q_norm = ∅ ∧ searchInIndex idx q_norm limit = []) ∧
    ((∀ tok ∈ primaryTokens q_norm,
        tokenPosting idx.token_index idx.token_pre_index tok ≠ ∅) →
      ∀ x, x ∈ candidateSet idx q_norm ↔
        ∀ tok ∈ primaryTokens q_norm, x ∈ tokenPosting idx.token_index idx.token_pre_index tok) := by
  have hpne : primaryTokens q_norm ≠ [] := by
    obtain ⟨t, htl, ht3, hts⟩ := hsig
    have : t ∈ (dedupFirst (asciiTokens q_norm)).filter
        (fun t => 3 ≤ t.length ∧ t ∉ asciiStopwords) := by
      rw [List.mem_filter]
      exact ⟨htl, by simp [ht3, hts]⟩
    unfold primaryTokens
    intro hc
    by_cases hf : (dedupFirst (asciiTokens q_norm)).filter
        (fun t => 3 ≤ t.length ∧ t ∉ asciiStopwords) = []
    · rw [hf] at this; exact absurd this (List.not_mem_nil t)
    · simp only [if_neg hf] at hc
      exact absurd hc hf
  constructor
  · rintro ⟨tok, htl, ht⟩
    have hnone : collectPostings idx.token_index idx.token_pre_index
        (primaryTokens q_norm) = none :=
      (collectPostings_none_iff ..).mpr ⟨tok, htl, ht⟩
    have hcand : candidatesOptCore idx.token_index idx.token_pre_index
        idx.cjk_char_index q_norm = some ∅ := by
      simp [candidatesOptCore, hcjk, hpne, hnone]
    exact ⟨by simp [candidateSet, candidatesOpt, hcand],
      searchInIndexCore_of_empty _ _ _ _ _ _ hcand⟩
  · intro hall x
    cases hcp : collectPostings idx.token_index idx.token_pre_index
        (primaryTokens q_norm) with
    | none =>
      obtain ⟨tok, htl, ht⟩ := (collectPostings_none_iff ..).mp hcp
      exact absurd ht (hall tok htl)
    | some ps =>
      have hmap := collectPostings_some _ _ _ _ hcp
      have hpsne : ps ≠ [] := by
        rw [hmap]
        simp [hpne]
      obtain ⟨t, htloop, hiff⟩ :=
        interLoop_none (stableSort (fun a b => a.1 ≤ b.1) ps)
          (stableSort_ne_nil _ _ hpsne)
      have hcand : candidatesOptCore idx.token_index idx.token_pre_index
          idx.cjk_char_index q_norm = some t := by
        simp [candidatesOptCore, hcjk, hpne, hcp, hpsne, htloop]
      rw [show candidateSet idx q_norm = t by simp [candidateSet, candidatesOpt, hcand]]
      rw [hiff]
      constructor
      · intro hp tok htl
        have : ((tokenPosting idx.token_index idx.token_pre_index tok).card,
            tokenPosting idx.token_index idx.token_pre_index tok) ∈ ps := by
          rw [hmap]
          exact List.mem_map.mpr ⟨tok, htl, rfl⟩
        exact hp _ ((mem_stableSort ..).mpr this)
      · intro hp p hps
        have hpp := (mem_stableSort ..).mp hps
        rw [hmap] at hpp
        obtain ⟨tok, htl, rfl⟩ := List.mem_map.mp hpp
        exact hp tok htl

/-- Witness for C3 (amended): the query "zzz" over the "azzzb" index has a
primary token with no postings, so the candidate set is empty and the
search returns nothing. -/
theorem claim_c3_witness :
    candidateSet azIdx (String.toList "zzz") = ∅ ∧
    searchInIndex azIdx (String.toList "zzz") 50 = [] :=
  (claim_c3_amended azIdx (String.toList "zzz") 50 (by decide)
    ⟨String.toList "zzz", by decide⟩).1
    ⟨String.toList "zzz", by decide, by decide⟩

/-! ## Claim C7 -/

/-- C7: index construction is idempotent and a deterministic function of
the document array alone: rebuilding twice equals rebuilding once, and two
indexes over equal document arrays get equal token, prefix and CJK
postings maps and identical ranked query results for every query and
limit. -/
theorem claim_c7 (idx idx' : FolderSearchIndex) (h : idx.docs = idx'.docs) :
    rebuildTokenIndexes (rebuildTokenIndexes idx) = rebuildTokenIndexes idx ∧
    (rebuildTokenIndexes idx).token_index = (rebuildTokenIndexes idx').token_index ∧
    (rebuildTokenIndexes idx).token_pre_index = (rebuildTokenIndexes idx').token_pre_index ∧
    (rebuildTokenIndexes idx).cjk_char_index = (rebuildTokenIndexes idx').cjk_char_index ∧
    ∀ q l, searchInIndex (rebuildTokenIndexes idx) q l =
      searchInIndex (rebuildTokenIndexes idx') q l := by
  refine ⟨rfl, ?_, ?_, ?_, fun q l => ?_⟩
  · simp only [rebuildTokenIndexes, h]
  · simp only [rebuildTokenIndexes, h]
  · simp only [rebuildTokenIndexes, h]
  · exact searchInIndex_congr _ _ (by simp [rebuildTokenIndexes, h])
      (by simp [rebuildTokenIndexes, h]) (by simp [rebuildTokenIndexes, h])
      (by simp [rebuildTokenIndexes, h]) q l

/-- Witness for C7 at a concrete index. -/
theorem claim_c7_witness :
    rebuildTokenIndexes (rebuildTokenIndexes sampleIdx) = rebuildTokenIndexes sampleIdx ∧
    ∀ q l, searchInIndex (rebuildTokenIndexes sampleIdx) q l =
      searchInIndex (rebuildTokenIndexes sampleIdx) q l := by
  obtain ⟨h1, _, _, _, h5⟩ := claim_c7 sampleIdx sampleIdx rfl
  exact ⟨h1, h5⟩

/-! ## Claim C10 -/

/-- C10: for an empty or whitespace-only folder name, `schedule_build` and
`invalidate` return without changing coordinator state (and no build is
submitted), while `ensure_index` raises `ValueError`. -/
theorem claim_c10 (s : CoordState) (folder : String)
    (h : folder.toList.all isSpace = true) :
    scheduleBuildOp s folder = (s, false) ∧ invalidateOp s folder = s ∧
    ∀ res postWait, ensureIndexOp s folder res postWait = (.errValue, s) := by
  have hf : stripStr folder = "" := stripStr_eq_empty folder h
  refine ⟨?_, ?_, fun res postWait => ?_⟩ <;>
    simp [scheduleBuildOp, invalidateOp, ensureIndexOp, hf]

/-- Witness for C10 at the concrete whitespace folder name. -/
theorem claim_c10_witness :
    scheduleBuildOp coord0 "  " = (coord0, false) ∧ invalidateOp coord0 "  " = coord0 ∧
    ensureIndexOp coord0 "  " (.error []) coord0 = (.errValue, coord0) := by
  obtain ⟨h1, h2, h3⟩ := claim_c10 coord0 "  " (by decide)
  exact ⟨h1, h2, h3 (.error []) coord0⟩

/-! ## Claim C9 -/

/-- C9 counterexample: in the synchronous-build path of `ensure_index`
(absent collection), the build work runs with the coordinator lock held. -/
theorem claim_c9_cex :
    ensureSyncTrace.get? 1 = some .buildWork ∧ heldAt ensureSyncTrace 1 := by
  exact ⟨rfl, by decide⟩

/-- C9 (amended): the coordinator lock is never held during background
(worker-pool) builds nor during query scoring; the synchronous build that
`ensure_index` performs for an absent collection, however, runs with the
(re-entrant) lock held. -/
theorem claim_c9_amended :
    (∀ i, i < backgroundBuildTrace.length →
      backgroundBuildTrace.get? i = some .buildWork →
        lockDepthAt backgroundBuildTrace i = 0) ∧
    (∀ i, i < searchReadyTrace.length →
      searchReadyTrace.get? i = some .scoreWork →
        lockDepthAt searchReadyTrace i = 0) ∧
    ensureSyncTrace.get? 1 = some .buildWork ∧ heldAt ensureSyncTrace 1 := by
  decide

/-- Witness for C9 (amended) at the first trace position. -/
theorem claim_c9_witness : lockDepthAt backgroundBuildTrace 0 = 0 :=
  claim_c9_amended.1 0 (by decide) (by decide)

/-! ## Claim C1 -/

/-- C1 counterexample: documents mutate and `invalidate` runs while a
build is in flight; the build then installs its pre-invalidation index,
and a search finding the collection ready observes generation 0 even
though the documents are at generation 1 — both before and after the
build-completion bookkeeping (the follow-up rebuild still in flight). -/
theorem claim_c1_cex :
    simStale.docsGen = 1 ∧ simReadyView simStale = some 0 ∧
    simReadyView simStale ≠ some simStale.docsGen ∧
    simReadyView (simFinally simStale) = some 0 ∧
    (simFinally simStale).building = true := by
  decide

/-- C1 (amended): when the dirty flag is set at the completion of an
in-flight build, the completion bookkeeping immediately re-enters building
(exactly one follow-up build, event left cleared) instead of settling
ready, and — absent further mutations — the follow-up build settles with
an index of the post-invalidation document generation; however a search
issued between the in-flight build's index installation and the follow-up
build's completion can observe ready results of the pre-invalidation
generation. -/
theorem claim_c1_amended (s : SimState) (hb : s.building = true)
    (hd : s.dirty = true) :
    (simFinally (simSwap s)).building = true ∧
    (simFinally (simSwap s)).dirty = false ∧
    (simFinally (simSwap s)).evSet = false ∧
    (simFinally (simSwap s)).pending = some s.docsGen ∧
    (simFinally (simSwap (simFinally (simSwap s)))).index = some s.docsGen ∧
    (simFinally (simSwap (simFinally (simSwap s)))).building = false ∧
    (simFinally (simSwap (simFinally (simSwap s)))).dirty = false ∧
    simReadyView simStale = some 0 ∧ simStale.docsGen = 1 := by
  obtain ⟨i, bu, di, ev, g, pe⟩ := s
  simp only at hb hd
  subst hb; subst hd
  cases pe <;> simp [simFinally, simSwap, simReadyView, simStale, simSt0,
    simMutate, simInvalidate]

/-- Witness for C1 (amended) at a concrete dirty in-flight state. -/
theorem claim_c1_witness :
    (simFinally (simSwap ⟨none, true, true, false, 3, some 1⟩)).building = true ∧
    (simFinally (simSwap (simFinally (simSwap
      ⟨none, true, true, false, 3, some 1⟩)))).index = some 3 := by
  obtain ⟨h1, _, _, _, h5, _⟩ := claim_c1_amended ⟨none, true, true, false, 3, some 1⟩ rfl rfl
  exact ⟨h1, h5⟩

/-! ## Claim C8 -/

theorem addPost_subset (m : PostingMap) (k : List Char) (i : ℕ) (t : List Char) :
    m t ⊆ addPost m k i t := by
  unfold addPost
  by_cases h : t = k
  · rw [if_pos h]
    exact Finset.subset_insert i (m t)
  · rw [if_neg h]

theorem mem_addPost_self (m : PostingMap) (k : List Char) (i : ℕ) :
    i ∈ addPost m k i k := by
  unfold addPost
  rw [if_pos rfl]
  exact Finset.mem_insert_self i (m k)

theorem preFold_subset (i : ℕ) (tok : List Char) (plist : List ℕ) :
    ∀ (m : PostingMap) (t : List Char),
      m t ⊆ (plist.foldl (fun m plen => addPost m (tok.take plen) i) m) t := by
  induction plist with
  | nil => exact fun m t => subset_rfl
  | cons p ps ih =>
    intro m t
    exact (addPost_subset m (tok.take p) i t).trans (ih _ t)

theorem mem_preFold (i : ℕ) (tok : List Char) (plist : List ℕ) (plen : ℕ)
    (h : plen ∈ plist) :
    ∀ m : PostingMap,
      i ∈ (plist.foldl (fun m plen => addPost m (tok.take plen) i) m) (tok.take plen) := by
  induction plist with
  | nil => exact absurd h (List.not_mem_nil plen)
  | cons p ps ih =>
    intro m
    rcases List.mem_cons.mp h with rfl | h2
    · exact preFold_subset i tok ps _ _ (mem_addPost_self m (tok.take plen) i)
    · exact ih h2 _

theorem indexToken_pre_subset (acc : PostingMap × PostingMap) (i : ℕ)
    (tok t : List Char) : acc.2 t ⊆ (indexToken acc i tok).2 t := by
  unfold indexToken
  by_cases h : 3 ≤ tok.length
  · simp only [if_pos h]
    exact preFold_subset i tok (preLens tok) acc.2 t
  · simp only [if_neg h]
    exact subset_rfl

theorem mem_indexToken_pre (acc : PostingMap × PostingMap) (i : ℕ)
    (tok : List Char) (h3 : 3 ≤ tok.length) (plen : ℕ) (hp : plen ∈ preLens tok) :
    i ∈ (indexToken acc i tok).2 (tok.take plen) := by
  unfold indexToken
  simp only [if_pos h3]
  exact mem_preFold i tok (preLens tok) plen hp acc.2

theorem tokFold_pre_subset (i : ℕ) (toks : List (List Char)) :
    ∀ (acc : PostingMap × PostingMap) (t : List Char),
      acc.2 t ⊆ (toks.foldl (fun a tok => indexToken a i tok) acc).2 t := by
  induction toks with
  | nil => exact fun acc t => subset_rfl
  | cons tok toks ih =>
    intro acc t
    exact (indexToken_pre_subset acc i tok t).trans (ih _ t)

theorem mem_tokFold_pre (i : ℕ) (toks : List (List Char)) (tok : List Char)
    (htok : tok ∈ toks) (h3 : 3 ≤ tok.length) (plen : ℕ) (hp : plen ∈ preLens tok) :
    ∀ acc : PostingMap × PostingMap,
      i ∈ (toks.foldl (fun a tok => indexToken a i tok) acc).2 (tok.take plen) := by
  induction toks with
  | nil => exact absurd htok (List.not_mem_nil tok)
  | cons tk toks ih =>
    intro acc
    rcases List.mem_cons.mp htok with rfl | h2
    · exact tokFold_pre_subset i toks _ _ (mem_indexToken_pre acc i tok h3 plen hp)
    · exact ih h2 _

theorem indexDoc_pre_subset (acc : PostingMap × PostingMap × CjkMap) (i : ℕ)
    (doc : SearchDoc) (t : List Char) : acc.2.1 t ⊆ (indexDoc acc i doc).2.1 t := by
  unfold indexDoc
  exact tokFold_pre_subset i (docTokens doc.text_norm) (acc.1, acc.2.1) t

theorem mem_indexDoc_pre (acc : PostingMap × PostingMap × CjkMap) (i : ℕ)
    (doc : SearchDoc) (tok : List Char) (htok : tok ∈ docTokens doc.text_norm)
    (h3 : 3 ≤ tok.length) (plen : ℕ) (hp : plen ∈ preLens tok) :
    i ∈ (indexDoc acc i doc).2.1 (tok.take plen) := by
  unfold indexDoc
  exact mem_tokFold_pre i (docTokens doc.text_norm) tok htok h3 plen hp (acc.1, acc.2.1)

theorem docsFold_pre_subset (l : List (ℕ × SearchDoc)) :
    ∀ (acc : PostingMap × PostingMap × CjkMap) (t : List Char),
      acc.2.1 t ⊆ (l.foldl (fun acc p => indexDoc acc p.1 p.2) acc).2.1 t := by
  induction l with
  | nil => exact fun acc t => subset_rfl
  | cons p ps ih =>
    intro acc t
    exact (indexDoc_pre_subset acc p.1 p.2 t).trans (ih _ t)

theorem mem_docsFold_pre (l : List (ℕ × SearchDoc)) (i : ℕ) (doc : SearchDoc)
    (hmem : (i, doc) ∈ l) (tok : List Char) (htok : tok ∈ docTokens doc.text_norm)
    (h3 : 3 ≤ tok.length) (plen : ℕ) (hp : plen ∈ preLens tok) :
    ∀ acc : PostingMap × PostingMap × CjkMap,
      i ∈ (l.foldl (fun acc p => indexDoc acc p.1 p.2) acc).2.1 (tok.take plen) := by
  induction l with
  | nil => exact absurd hmem (List.not_mem_nil _)
  | cons p ps ih =>
    intro acc
    rcases List.mem_cons.mp hmem with rfl | h2
    · exact docsFold_pre_subset ps _ _ (mem_indexDoc_pre acc i doc tok htok h3 plen hp)
    · exact ih h2 _

theorem mem_enumFrom_of_get? {α : Type} (l : List α) :
    ∀ (n i : ℕ) (a : α), l.get? i = some a → (n + i, a) ∈ List.enumFrom n l := by
  induction l with
  | nil => intro n i a h; simp [List.get?] at h
  | cons x xs ih =>
    intro n i a h
    cases i with
    | zero =>
      simp only [List.get?] at h
      simp [Option.some.inj h]
    | succ j =>
      simp only [List.get?] at h
      have := ih (n + 1) j a h
      rw [show n + (j + 1) = n + 1 + j by omega]
      exact List.mem_cons_of_mem _ this

theorem mem_enum_of_get? {α : Type} (l : List α) (i : ℕ) (a : α)
    (h : l.get? i = some a) : (i, a) ∈ l.enum := by
  have := mem_enumFrom_of_get? l 0 i a h
  simpa using this

theorem mem_preLens (tok : List Char) (plen : ℕ) (hlo : 3 ≤ plen)
    (hhi : plen ≤ min 8 tok.length) : plen ∈ preLens tok := by
  unfold preLens
  rw [List.mem_range'_1]
  omega

/-- C8: every document containing an ASCII token of length ≥ 3 is
registered in the prefix postings under every prefix of that token of
length 3..min(8, token length); consequently the 5-character query
"trans" matches the sample document containing the token "transformers"
via the prefix postings even though "trans" is not itself a token of the
document. -/
theorem claim_c8 (idx : FolderSearchIndex) (i : ℕ) (doc : SearchDoc)
    (hget : idx.docs.get? i = some doc) (tok : List Char)
    (htok : tok ∈ docTokens doc.text_norm) (h3 : 3 ≤ tok.length)
    (plen : ℕ) (hlo : 3 ≤ plen) (hhi : plen ≤ min 8 tok.length) :
    i ∈ (rebuildTokenIndexes idx).token_pre_index (tok.take plen) ∧
    (searchInIndex sampleIdx (String.toList "trans") 50).map (fun r => r.id) = ["a"] ∧
    String.toList "trans" ∉ docTokens sampleDoc.text_norm := by
  refine ⟨?_, by decide, by decide⟩
  have hp := mem_preLens tok plen hlo hhi
  have henum := mem_enum_of_get? idx.docs i doc hget
  show i ∈ (buildPostMaps idx.docs).2.1 (tok.take plen)
  unfold buildPostMaps
  exact mem_docsFold_pre idx.docs.enum i doc henum tok htok h3 plen hp _

/-- Witness for C8: the token "transformers" of the sample document is
registered under its 5-character prefix "trans". -/
theorem claim_c8_witness :
    0 ∈ (rebuildTokenIndexes ⟨"f", [sampleDoc], emptyPost, emptyPost, emptyCjk, 5⟩).token_pre_index
      (String.toList "trans") :=
  (claim_c8 ⟨"f", [sampleDoc], emptyPost, emptyPost, emptyCjk, 5⟩ 0 sampleDoc rfl
    (String.toList "transformers") (by decide) (by decide) 5 (by decide) (by decide)).1

/-! ## Claim C6 -/

/-- C6 counterexample, refuting "cleared only by a fresh successful
build" in both directions: (a) a recorded build error is cleared by
`invalidate`, an operation that is not a successful build; (b) a fresh
successful build through a special Claude/Gemini container path installs
the index yet leaves the recorded error in place. -/
theorem claim_c6_cex :
    (buildIndexSafeStep coord0 "f" (.error (String.toList "boom"))).1.build_errors "f"
      = some (String.toList "boom") ∧
    (invalidateOp
      (buildIndexSafeStep coord0 "f" (.error (String.toList "boom"))).1
      "f").build_errors "f" = none ∧
    (buildIndexSafeStep
      (buildIndexSafeStep coord0 "f" (.error (String.toList "boom"))).1
      "f" (.ok ⟨sampleIdx, true⟩)).1.build_errors "f" = some (String.toList "boom") ∧
    ((buildIndexSafeStep
      (buildIndexSafeStep coord0 "f" (.error (String.toList "boom"))).1
      "f" (.ok ⟨sampleIdx, true⟩)).1.indexes "f").isSome = true := by
  decide

/-- C6 (amended): when a build for a collection raises, the exception
message is recorded as the collection's `last_error` (the collection
staying absent when no index was installed), and an `ensure_index` caller
that waited out the failed build has that message raised; the recorded
error is cleared by a fresh successful build through the generic per-file
path — but NOT by a successful build through the special Claude/Gemini
container paths, which install the index and return before the error
pop — and it is also cleared by `invalidate` (and `invalidate_all`). -/
theorem claim_c6_amended (s : CoordState) (f : String) (e : List Char)
    (idx : FolderSearchIndex) :
    (buildIndexSafeStep s f (.error e)).1.build_errors f = some e ∧
    (s.indexes f = none → (buildIndexSafeStep s f (.error e)).1.indexes f = none) ∧
    (∀ (s' postWait : CoordState) (folder : String) res,
      stripStr folder = f → f ≠ "" → s'.indexes f = none → s'.building f = true →
      postWait.indexes f = none → postWait.build_errors f = some e → e ≠ [] →
      ensureIndexOp s' folder res postWait = (.errRun e, postWait)) ∧
    (buildIndexSafeStep s f (.ok ⟨idx, false⟩)).1.build_errors f = none ∧
    (buildIndexSafeStep s f (.ok ⟨idx, true⟩)).1.build_errors f = s.build_errors f ∧
    (buildIndexSafeStep s f (.ok ⟨idx, true⟩)).1.indexes f = some idx ∧
    (∀ folder, stripStr folder = f → f ≠ "" →
      (invalidateOp s folder).build_errors f = none) := by
  refine ⟨buildStep_errors_err s f e,
    fun h => (buildStep_indexes_err s f e).trans h,
    ?_, buildStep_errors_ok_generic s f idx, buildStep_errors_ok_special s f idx,
    buildStep_indexes_ok s f ⟨idx, true⟩, ?_⟩
  · intro s' postWait folder res hstrip hfne hidx hb hpidx hperr hene
    unfold ensureIndexOp
    rw [hstrip]
    rw [if_neg hfne, hidx, hb]
    simp [hpidx, hperr, hene]
  · intro folder hstrip hfne
    unfold invalidateOp
    rw [hstrip, if_neg hfne]
    simp [upd]

/-- Witness for C6 (amended) at concrete inputs. -/
theorem claim_c6_witness :
    (buildIndexSafeStep coord0 "g" (.error (String.toList "oops"))).1.build_errors "g"
      = some (String.toList "oops") ∧
    (buildIndexSafeStep coord0 "g" (.ok ⟨sampleIdx, true⟩)).1.build_errors "g"
      = coord0.build_errors "g" ∧
    (invalidateOp coord0 "g").build_errors "g" = none := by
  obtain ⟨h1, _, _, _, h5, _, h7⟩ :=
    claim_c6_amended coord0 "g" (String.toList "oops") sampleIdx
  exact ⟨h1, h5, h7 "g" rfl (by decide)⟩

/-! ## Claim C4 -/

/-- C4 counterexample: a genuine build failure for the (missing) folder
literally named "still building" produces the error message
"folder not found: still building"; `search`'s substring sniffing then
maps this genuine failure to a `ready: false` response instead of raising
it — the "still building" condition IS confused with a build failure. -/
theorem claim_c4_cex :
    (searchOp coord0 "still building" "hello" 50
      (.error (buildFailMsg "still building")) coord0).1 = .resp ⟨false, []⟩ ∧
    (searchOp coord0 "still building" "hello" 50
      (.error (buildFailMsg "still building")) coord0).2.build_errors "still building"
      = some (buildFailMsg "still building") := by
  decide

/-- C4 (amended): `ensure_index` returns the index immediately when ready;
when absent it builds synchronously and returns the new index or raises
the build error; when being built by another caller it waits out the
timeout and raises the RuntimeError "index is still building", which
`search` maps to a `ready: false` response (empty results).  The
distinction from genuine build failures is by substring inspection of the
message: an error is raised (not mapped to `ready: false`) exactly when
its lowercased message does not contain "still building" — so a genuine
failure whose message contains that phrase is also reported as not-ready. -/
theorem claim_c4_amended (s postWait : CoordState) (folder q : String) (limit : ℕ)
    (res : Except (List Char) BuiltIndex)
    (hf : stripStr folder ≠ "") :
    (∀ idx, s.indexes (stripStr folder) = some idx →
      ensureIndexOp s folder res postWait = (.ok idx, s)) ∧
    (s.indexes (stripStr folder) = none → s.building (stripStr folder) = false →
      ∀ b, res = .ok b → (ensureIndexOp s folder res postWait).1 = .ok b.idx) ∧
    (s.indexes (stripStr folder) = none → s.building (stripStr folder) = false →
      ∀ e, res = .error e → e ≠ [] →
        (ensureIndexOp s folder res postWait).1 = .errRun e) ∧
    (s.indexes (stripStr folder) = none → s.building (stripStr folder) = true →
      postWait.indexes (stripStr folder) = none →
      postWait.build_errors (stripStr folder) = none →
      ensureIndexOp s folder res postWait =
        (.errRun (String.toList "index is still building"), postWait) ∧
      (normalizeQuery q.toList ≠ [] →
        (searchOp s folder q limit res postWait).1 = .resp ⟨false, []⟩)) ∧
    (∀ msg, stillBuildingTest msg = false → normalizeQuery q.toList ≠ [] →
      s.indexes (stripStr folder) = none → s.building (stripStr folder) = true →
      postWait.indexes (stripStr folder) = none →
      postWait.build_errors (stripStr folder) = some msg → msg ≠ [] →
      (searchOp s folder q limit res postWait).1 = .raisedRun msg) := by
  refine ⟨?_, ?_, ?_, ?_, ?_⟩
  · intro idx hidx
    unfold ensureIndexOp
    rw [if_neg hf, hidx]
  · intro hidx hb b hres
    subst hres
    unfold ensureIndexOp
    rw [if_neg hf, hidx, hb]
    simp only [Bool.false_eq_true, not_false_eq_true, if_true]
    rw [buildStep_indexes_ok]
  · intro hidx hb e hres hene
    subst hres
    unfold ensureIndexOp
    rw [if_neg hf, hidx, hb]
    simp only [Bool.false_eq_true, not_false_eq_true, if_true]
    rw [buildStep_indexes_err, buildStep_errors_err]
    simp [hidx, hene]
  · intro hidx hb hpidx hperr
    have hens : ensureIndexOp s folder res postWait =
        (.errRun (String.toList "index is still building"), postWait) := by
      unfold ensureIndexOp
      rw [if_neg hf, hidx, hb]
      simp [hpidx, hperr]
    refine ⟨hens, fun hq => ?_⟩
    unfold searchOp
    rw [if_neg hq, hens]
    simp only
    rw [if_pos (by decide)]
  · intro msg hmsg hq hidx hb hpidx hperr hmne
    have hens : ensureIndexOp s folder res postWait = (.errRun msg, postWait) := by
      unfold ensureIndexOp
      rw [if_neg hf, hidx, hb]
      simp [hpidx, hperr, hmne]
    unfold searchOp
    rw [if_neg hq, hens]
    simp only
    rw [if_neg (by simp [hmsg])]

/-- Witness for C4 (amended): the ready path returns the installed index
immediately. -/
theorem claim_c4_witness :
    ensureIndexOp coordReady "f" (.error []) coord0 = (.ok sampleIdx, coordReady) :=
  (claim_c4_amended coordReady coord0 "f" "hello" 50 (.error [])
    (by decide)).1 sampleIdx rfl

/-! ## Claim C5 -/

/-- C5 counterexample: two builds can carry the same `built_at` clock
stamp (`time.time()` grants no strict monotonicity).  After `sampleIdx`
(one document, stamp 5) is replaced by `emptyDocsIdx` (no documents,
stamp 5), a search for "hello" hits the cache entry populated against the
pre-rebuild generation and returns its non-empty results, although the
current index matches nothing: the stamp is not strictly greater and the
two generations share a cache hit. -/
theorem claim_c5_cex :
    emptyDocsIdx.built_at = sampleIdx.built_at ∧
    (coordRebuilt.indexes "f").map (fun i => i.docs.length) = some 0 ∧
    (searchOp coordRebuilt "f" "hello" 50 (.error []) coord0).1 =
      .resp ⟨true, searchInIndex sampleIdx (normalizeQuery (String.toList "hello")) 50⟩ ∧
    searchInIndex sampleIdx (normalizeQuery (String.toList "hello")) 50 ≠ [] ∧
    searchInIndex emptyDocsIdx (normalizeQuery (String.toList "hello")) 50 = [] := by
  decide

/-- C5 (amended): every successful build stamps the new index with the
completion-time clock reading as `built_at`; nothing guarantees the stamp
strictly exceeds the replaced index's.  Because the stamp is part of the
result-cache key, whenever the stamps of two generations differ, a search
against the new generation can never hit a cache entry populated against
the old one: with every cached key at stamp `t1` and the current index
stamped differently, the search recomputes its results. -/
theorem claim_c5_amended (s postWait : CoordState) (folder q : String) (limit : ℕ)
    (idx : FolderSearchIndex) (t1 : ℕ)
    (res : Except (List Char) BuiltIndex)
    (hf : stripStr folder ≠ "")
    (hidx : s.indexes (stripStr folder) = some idx)
    (hq : normalizeQuery q.toList ≠ [])
    (hcache : ∀ kv ∈ s.search_cache, kv.1.built_at = t1)
    (hneq : idx.built_at ≠ t1) :
    (searchOp s folder q limit res postWait).1 =
      .resp ⟨true, searchInIndex idx (normalizeQuery q.toList) (effLimit limit)⟩ := by
  have hens : ensureIndexOp s folder res postWait = (.ok idx, s) := by
    unfold ensureIndexOp
    rw [if_neg hf, hidx]
  have hmiss : cacheLookup s.search_cache
      ⟨folder, normalizeQuery q.toList, effLimit limit, idx.built_at⟩ = none := by
    unfold cacheLookup
    rw [List.find?_eq_none.mpr]
    intro kv hkv
    simp only [decide_eq_true_eq]
    intro hkey
    exact hneq (by rw [← hcache kv hkv, hkey])
  unfold searchOp
  rw [if_neg hq, hens]
  simp only
  rw [hmiss]

/-- Witness for C5 (amended): a search against an empty cache (trivially
all at stamp 7) with the current index stamped 5 recomputes results. -/
theorem claim_c5_witness :
    (searchOp coordReady "f" "hello" 50 (.error []) coord0).1 =
      .resp ⟨true, searchInIndex sampleIdx (normalizeQuery (String.toList "hello"))
        (effLimit 50)⟩ :=
  claim_c5_amended coordReady coord0 "f" "hello" 50 sampleIdx 7 (.error [])
    (by decide) rfl (by decide) (by intro kv hkv; exact absurd hkv (List.not_mem_nil kv))
    (by decide)

/-! ## Sanity checks (spec §8 scenarios) -/

example : asciiTokens (String.toList "hello, world x ab") =
    [String.toList "hello", String.toList "world", String.toList "ab"] := by decide

example : normalizeQuery (String.toList "  Hello   World ") = String.toList "hello world" := by
  decide

example : findSub (String.toList "lo w") (String.toList "hello world") = 3 := by decide

example : findSub (String.toList "zz") (String.toList "hello") = -1 := by decide

example : dedupFirst [1, 2, 1, 3, 2] = [1, 2, 3] := by decide

example : (searchInIndex sampleIdx (String.toList "trans") 50).map (fun r => r.id) = ["a"] := by
  decide

example : (searchInIndex sampleIdx (String.toList "world") 50).map (fun r => r.score) = [144] := by
  decide

example : searchInIndex sampleIdx (String.toList "zzz") 50 = [] := by decide

example : (searchInIndex cjkIdx (String.toList "变压器") 50).map (fun r => r.id) = ["a"] := by
  decide

end UniteChat
